import Mathlib

/-!
Verification of the aliasing visualizer core (src/app.py).

The program is a single script.  Its algorithmic kernel consists of:
* `get_signal_value` (lines 47-62): the waveform generator, dispatching on a
  shape string and returning `dc + amp * f(t)`;
* the sparse sample grid (lines 77-80): `dt_sample = 1 / sampling_freq`,
  `n_samples = int(T_DISPLAY * sampling_freq) + 1`,
  `t_sample = np.linspace(0, T_DISPLAY, n_samples)`;
* the alias computation (lines 127-146): the `sampling_freq <= 0` guard, the
  `f_nyquist == 0` guard, the modulo fold, the Nyquist mirror and the
  `abs(f_alias - signal_freq) > 0.01` aliasing test.

Python floats are modelled as real numbers; `numpy` float operations become
the corresponding real operations (`np.sign 0 = 0`, `np.floor = Int.floor`,
the `%` operation with a positive right operand is the non-negative remainder
`a - b * ⌊a / b⌋`).
-/

namespace AliasingVisualizer

/-- Shape string for the sine waveform, as selected by the UI (line 26). -/
def sineShape : String := "sine"

/-- Shape string for the square waveform (line 26). -/
def squareShape : String := "square"

/-- Shape string for the triangle waveform (line 26). -/
def triangleShape : String := "triangle"

/-- Shape string for the sawtooth waveform (line 26). -/
def sawtoothShape : String := "sawtooth"

/-- Embedding of `get_signal_value(t, shape, freq, amp, dc)` (src/app.py
lines 47-62).  The Python code initialises `value = 0`, overwrites it in the
matching `if`/`elif` branch, and returns `dc + amp * value`; a shape string
matching no branch leaves `value = 0`. -/
noncomputable def get_signal_value (t : ℝ) (shape : String) (freq amp dc : ℝ) : ℝ :=
  let omega := 2 * Real.pi * freq
  let value : ℝ :=
    if shape = "sine" then Real.sin (omega * t)
    else if shape = "square" then Real.sign (Real.sin (omega * t))
    else if shape = "triangle" then (2 / Real.pi) * Real.arcsin (Real.sin (omega * t))
    else if shape = "sawtooth" then 2 * (t * freq - (⌊0.5 + t * freq⌋ : ℝ))
    else 0
  dc + amp * value

/-- C1: for every recognized shape and all real `t`, `freq`, `amp`, `dc`, the
waveform generator returns `dc + amp * f t` with, writing `ω = 2π·freq`:
`f t = sin (ω t)` for sine; `sign (sin (ω t))` with `sign 0 = 0` (spelled out
as the three-way case split) for square; `(2/π) · asin (sin (ω t))` for
triangle; and `2·(t·freq − ⌊0.5 + t·freq⌋)` for sawtooth. -/
theorem C1_waveform_formulas (t freq amp dc : ℝ) :
    get_signal_value t sineShape freq amp dc
      = dc + amp * Real.sin (2 * Real.pi * freq * t) ∧
    get_signal_value t squareShape freq amp dc
      = dc + amp * (if Real.sin (2 * Real.pi * freq * t) < 0 then -1
          else if 0 < Real.sin (2 * Real.pi * freq * t) then 1 else 0) ∧
    get_signal_value t triangleShape freq amp dc
      = dc + amp * ((2 / Real.pi) * Real.arcsin (Real.sin (2 * Real.pi * freq * t))) ∧
    get_signal_value t sawtoothShape freq amp dc
      = dc + amp * (2 * (t * freq - (⌊0.5 + t * freq⌋ : ℝ))) := by
  refine ⟨?_, ?_, ?_, ?_⟩ <;>
    simp [get_signal_value, sineShape, squareShape, triangleShape, sawtoothShape, Real.sign]

/-- Error states of the alias calculator, as named by the error messages of
src/app.py lines 128 and 133. -/
inductive SpectrumError where
  | invalidSamplingRate
  | degenerateSpectrum
deriving DecidableEq

/-- Result of the alias computation (src/app.py lines 130-146): the Nyquist
frequency `f_nyquist`, the folded alias frequency `f_alias` and the
`is_aliased` flag. -/
structure SpectrumResult where
  nyquistFrequency : ℝ
  aliasFrequency : ℝ
  isAliased : Prop

/-- Embedding of the fold-and-mirror computation of src/app.py lines 139-143:
`f_alias = signal_freq % sampling_freq` (the non-negative remainder
`a - b * ⌊a / b⌋` for a positive modulus), then
`if f_alias > f_nyquist: f_alias = sampling_freq - f_alias`. -/
noncomputable def f_alias (signal_freq sampling_freq : ℝ) : ℝ :=
  let f_nyquist := sampling_freq / 2
  let fa := signal_freq - sampling_freq * (⌊signal_freq / sampling_freq⌋ : ℝ)
  if fa > f_nyquist then sampling_freq - fa else fa

/-- Embedding of the spectrum section of src/app.py lines 127-146: the
`sampling_freq <= 0` guard (line 127), the `f_nyquist == 0` guard (line 132),
then the fold and the aliasing test
`abs(f_alias - signal_freq) > 0.01` (line 145); `is_aliased` starts `False`
and is set exactly when that test holds. -/
noncomputable def computeAlias (signal_freq sampling_freq : ℝ) :
    Except SpectrumError SpectrumResult :=
  if sampling_freq ≤ 0 then .error .invalidSamplingRate
  else if sampling_freq / 2 = 0 then .error .degenerateSpectrum
  else .ok ⟨sampling_freq / 2, f_alias signal_freq sampling_freq,
    |f_alias signal_freq sampling_freq - signal_freq| > 0.01⟩

/-- Embedding of `n_samples = int(T_DISPLAY * sampling_freq) + 1`
(src/app.py line 78) with `T_DISPLAY = 0.1`; for a positive sampling
frequency Python `int` truncation agrees with the floor. -/
noncomputable def n_samples (sampling_freq : ℝ) : ℤ :=
  ⌊0.1 * sampling_freq⌋ + 1

/-- Embedding of `t_sample = np.linspace(0, T_DISPLAY, n_samples)`
(src/app.py line 79): for `n ≥ 2` points, `np.linspace 0 T n` places point
`i` at `i * (T / (n - 1))`; for a single point it is `[0.]`. -/
noncomputable def t_sample (sampling_freq : ℝ) (i : ℕ) : ℝ :=
  if n_samples sampling_freq ≤ 1 then 0
  else (i : ℝ) * (0.1 / ((n_samples sampling_freq : ℝ) - 1))

/-- Error raised by Python itself, before any validation in the script runs:
`1 / sampling_freq` at src/app.py line 77 raises `ZeroDivisionError` when
`sampling_freq = 0`. -/
inductive ScriptError where
  | zeroDivisionError
deriving DecidableEq

/-- Embedding of the order of evaluation of the script body: line 77 computes
`dt_sample = 1 / sampling_freq` unconditionally (raising `ZeroDivisionError`
for a zero rate), and only afterwards does line 127 test
`sampling_freq <= 0` and run the spectrum computation.  The result carries
`dt_sample` together with the outcome of the spectrum section. -/
noncomputable def renderApp (signal_freq sampling_freq : ℝ) :
    Except ScriptError (ℝ × Except SpectrumError SpectrumResult) :=
  if sampling_freq = 0 then .error .zeroDivisionError
  else .ok (1 / sampling_freq, computeAlias signal_freq sampling_freq)

/-- The folded remainder `signal_freq % sampling_freq` computed at line 139
is non-negative and lies strictly below a positive sampling frequency. -/
lemma folded_bounds (f fs : ℝ) (hfs : 0 < fs) :
    0 ≤ f - fs * (⌊f / fs⌋ : ℝ) ∧ f - fs * (⌊f / fs⌋ : ℝ) < fs := by
  have hne : fs ≠ 0 := ne_of_gt hfs
  have hrw : f - fs * (⌊f / fs⌋ : ℝ) = fs * Int.fract (f / fs) := by
    rw [Int.fract]
    field_simp
  constructor
  · rw [hrw]
    exact mul_nonneg hfs.le (Int.fract_nonneg _)
  · rw [hrw]
    calc fs * Int.fract (f / fs) < fs * 1 :=
          (mul_lt_mul_left hfs).mpr (Int.fract_lt_one _)
      _ = fs := mul_one fs

/-- With a positive sampling frequency both guards of the spectrum section
pass and `computeAlias` returns its result record. -/
lemma computeAlias_ok (f fs : ℝ) (hfs : 0 < fs) :
    computeAlias f fs
      = .ok ⟨fs / 2, f_alias f fs, |f_alias f fs - f| > 0.01⟩ := by
  have h1 : ¬ fs ≤ 0 := not_le.mpr hfs
  have h2 : ¬ (fs / 2 = 0) := ne_of_gt (by positivity)
  simp only [computeAlias, if_neg h1, if_neg h2]

/-- Unfolding of `f_alias` as a single conditional on the folded remainder. -/
lemma f_alias_eq (f fs : ℝ) :
    f_alias f fs
      = if f - fs * (⌊f / fs⌋ : ℝ) > fs / 2
        then fs - (f - fs * (⌊f / fs⌋ : ℝ))
        else f - fs * (⌊f / fs⌋ : ℝ) := rfl

/-- C2: for positive signal and sampling frequencies the alias calculator
computes `folded = f % fs`, the non-negative remainder in `[0, fs)`, and
returns `aliasFrequency = fs - folded` when `folded > fs / 2` and
`aliasFrequency = folded` otherwise; in particular `computeAlias 70 100`
yields alias frequency `30`. -/
theorem C2_alias_fold (f fs : ℝ) (hf : 0 < f) (hfs : 0 < fs) :
    (∃ r : SpectrumResult, computeAlias f fs = .ok r ∧
      0 ≤ f - fs * (⌊f / fs⌋ : ℝ) ∧ f - fs * (⌊f / fs⌋ : ℝ) < fs ∧
      r.aliasFrequency
        = if f - fs * (⌊f / fs⌋ : ℝ) > fs / 2
          then fs - (f - fs * (⌊f / fs⌋ : ℝ))
          else f - fs * (⌊f / fs⌋ : ℝ)) ∧
    (∃ r : SpectrumResult, computeAlias 70 100 = .ok r ∧ r.aliasFrequency = 30) := by
  obtain ⟨h0, h1⟩ := folded_bounds f fs hfs
  have hfl : (⌊(70 : ℝ) / 100⌋ : ℤ) = 0 := by
    rw [Int.floor_eq_zero_iff]
    constructor <;> norm_num
  refine ⟨⟨_, computeAlias_ok f fs hfs, h0, h1, f_alias_eq f fs⟩,
    ⟨_, computeAlias_ok 70 100 (by norm_num), ?_⟩⟩
  rw [f_alias_eq, hfl]
  norm_num

/-- Witness for C2 at the mirror-case input of the claim,
`signalFrequency = 70`, `samplingFrequency = 100`. -/
theorem C2_alias_fold_witness :
    (∃ r : SpectrumResult, computeAlias 70 100 = .ok r ∧
      0 ≤ (70 : ℝ) - 100 * (⌊(70 : ℝ) / 100⌋ : ℝ) ∧
      (70 : ℝ) - 100 * (⌊(70 : ℝ) / 100⌋ : ℝ) < 100 ∧
      r.aliasFrequency
        = if (70 : ℝ) - 100 * (⌊(70 : ℝ) / 100⌋ : ℝ) > 100 / 2
          then 100 - ((70 : ℝ) - 100 * (⌊(70 : ℝ) / 100⌋ : ℝ))
          else (70 : ℝ) - 100 * (⌊(70 : ℝ) / 100⌋ : ℝ)) ∧
    (∃ r : SpectrumResult, computeAlias 70 100 = .ok r ∧ r.aliasFrequency = 30) :=
  C2_alias_fold 70 100 (by norm_num) (by norm_num)

/-- C3: for positive signal and sampling frequencies the returned `isAliased`
flag holds exactly when the alias frequency differs from the signal frequency
by more than the fixed absolute threshold of `0.01` hertz. -/
theorem C3_is_aliased_iff (f fs : ℝ) (hf : 0 < f) (hfs : 0 < fs) :
    ∃ r : SpectrumResult, computeAlias f fs = .ok r ∧
      (r.isAliased ↔ |r.aliasFrequency - f| > 0.01) :=
  ⟨_, computeAlias_ok f fs hfs, Iff.rfl⟩

/-- Witness for C3 at `signalFrequency = 70`, `samplingFrequency = 100`. -/
theorem C3_is_aliased_iff_witness :
    ∃ r : SpectrumResult, computeAlias 70 100 = .ok r ∧
      (r.isAliased ↔ |r.aliasFrequency - 70| > 0.01) :=
  C3_is_aliased_iff 70 100 (by norm_num) (by norm_num)

/-- C6: for every non-positive sampling frequency (zero and negative values
alike) the alias calculator stops at the line-127 guard with the
invalid-sampling-rate error and produces no spectrum result. -/
theorem C6_invalid_sampling_rate (f fs : ℝ) (hfs : fs ≤ 0) :
    computeAlias f fs = .error .invalidSamplingRate := by
  simp only [computeAlias, if_pos hfs]

/-- Witness for C6 at the two error-case inputs of the claim,
`samplingFrequency = 0` and `samplingFrequency = -5`. -/
theorem C6_invalid_sampling_rate_witness :
    computeAlias 120 0 = .error .invalidSamplingRate ∧
    computeAlias 120 (-5) = .error .invalidSamplingRate :=
  ⟨C6_invalid_sampling_rate 120 0 le_rfl,
    C6_invalid_sampling_rate 120 (-5) (by norm_num)⟩

/-- C7: for positive signal and sampling frequencies the returned alias
frequency lies in the closed first Nyquist band `[0, fs / 2]`. -/
theorem C7_alias_in_band (f fs : ℝ) (hf : 0 < f) (hfs : 0 < fs) :
    ∃ r : SpectrumResult, computeAlias f fs = .ok r ∧
      0 ≤ r.aliasFrequency ∧ r.aliasFrequency ≤ fs / 2 := by
  obtain ⟨h0, h1⟩ := folded_bounds f fs hfs
  refine ⟨_, computeAlias_ok f fs hfs, ?_⟩
  by_cases hc : f - fs * (⌊f / fs⌋ : ℝ) > fs / 2
  · rw [f_alias_eq, if_pos hc]
    constructor <;> linarith
  · rw [f_alias_eq, if_neg hc]
    have hle := not_lt.mp hc
    exact ⟨h0, hle⟩

/-- Witness for C7 at the aliasing-case input `signalFrequency = 120`,
`samplingFrequency = 100`. -/
theorem C7_alias_in_band_witness :
    ∃ r : SpectrumResult, computeAlias 120 100 = .ok r ∧
      0 ≤ r.aliasFrequency ∧ r.aliasFrequency ≤ 100 / 2 :=
  C7_alias_in_band 120 100 (by norm_num) (by norm_num)

/-- Shape string outside the recognized selection (line 26 offers only the
four waveform names); used to exhibit the fall-through branch of
`get_signal_value`. -/
def hexagonShape : String := "hexagon"

/-- Second shape string outside the recognized selection. -/
def circleShape : String := "circle"

/-- C4 counterexample: at the unrecognized shape string `hexagon` with
`t = 1`, `freq = 2`, `amp = 5`, `dc = 3`, the generator raises no error and
returns the amplitude-free value `dc = 3`, refuting the claim that it fails
fast instead of silently producing an amplitude-free output. -/
theorem C4_counterexample : get_signal_value 1 hexagonShape 2 5 3 = 3 := by
  have h1 : hexagonShape ≠ "sine" := by decide
  have h2 : hexagonShape ≠ "square" := by decide
  have h3 : hexagonShape ≠ "triangle" := by decide
  have h4 : hexagonShape ≠ "sawtooth" := by decide
  simp [get_signal_value, h1, h2, h3, h4]

/-- C4 (amended): for every shape value outside the recognized enum the
generator raises no error and silently returns `dcOffset`: every `if` branch
of lines 51-60 is skipped, `value` keeps its initial `0`, and line 62 returns
`dc + amp * 0 = dc`, an output independent of the amplitude. -/
theorem C4_unrecognized_silent (t : ℝ) (shape : String) (freq amp dc : ℝ)
    (h1 : shape ≠ sineShape) (h2 : shape ≠ squareShape)
    (h3 : shape ≠ triangleShape) (h4 : shape ≠ sawtoothShape) :
    get_signal_value t shape freq amp dc = dc := by
  simp only [sineShape] at h1
  simp only [squareShape] at h2
  simp only [triangleShape] at h3
  simp only [sawtoothShape] at h4
  simp [get_signal_value, h1, h2, h3, h4]

/-- Witness for C4 at the unrecognized shape string `circle`. -/
theorem C4_unrecognized_silent_witness :
    get_signal_value 0 circleShape 1 5 2 = 2 :=
  C4_unrecognized_silent 0 circleShape 1 5 2 (by decide) (by decide) (by decide)
    (by decide)

/-- C5 evaluation at the failing input `samplingFrequency = 25`: the sparse
grid of line 79 places `n_samples = ⌊0.1 · 25⌋ + 1 = 3` points over
`[0, 0.1]`, so consecutive samples are `0.1 / 2 = 1/20` seconds apart, which
differs from the sampling period `1 / 25` claimed by the specification. -/
theorem C5_code_eval :
    t_sample 25 1 - t_sample 25 0 = 1 / 20 ∧ ((1 : ℝ) / 20 ≠ 1 / 25) := by
  have hfl : (⌊(0.1 : ℝ) * 25⌋ : ℤ) = 2 := by
    rw [Int.floor_eq_iff]
    constructor <;> norm_num
  constructor
  · simp only [t_sample, n_samples, hfl]
    norm_num
  · norm_num

/-- Absolute value of the square-wave factor is at most one. -/
lemma abs_sign_le_one (x : ℝ) : |Real.sign x| ≤ 1 := by
  rcases lt_trichotomy x 0 with h | h | h
  · rw [Real.sign_of_neg h]
    norm_num
  · rw [h, Real.sign_zero]
    norm_num
  · rw [Real.sign_of_pos h]
    norm_num

/-- Absolute value of the triangle-wave factor is at most one. -/
lemma abs_triangle_le_one (y : ℝ) : |2 / Real.pi * Real.arcsin y| ≤ 1 := by
  have hpi : 0 < Real.pi := Real.pi_pos
  have h1 : |Real.arcsin y| ≤ Real.pi / 2 := by
    rw [abs_le]
    exact ⟨Real.neg_pi_div_two_le_arcsin y, Real.arcsin_le_pi_div_two y⟩
  rw [abs_mul]
  have h2 : |2 / Real.pi| = 2 / Real.pi := abs_of_pos (by positivity)
  rw [h2]
  calc 2 / Real.pi * |Real.arcsin y| ≤ 2 / Real.pi * (Real.pi / 2) :=
        mul_le_mul_of_nonneg_left h1 (by positivity)
    _ = 1 := by field_simp

/-- Absolute value of the sawtooth factor is at most one. -/
lemma abs_sawtooth_le_one (x : ℝ) : |2 * (x - (⌊0.5 + x⌋ : ℝ))| ≤ 1 := by
  have h1 : (⌊0.5 + x⌋ : ℝ) ≤ 0.5 + x := Int.floor_le _
  have h2 : 0.5 + x < (⌊0.5 + x⌋ : ℝ) + 1 := Int.lt_floor_add_one _
  rw [abs_le]
  constructor <;> linarith

/-- A waveform factor bounded by one keeps the output within one amplitude
of the offset. -/
lemma offset_bound (amp dc v : ℝ) (hamp : 0 ≤ amp) (hv : |v| ≤ 1) :
    |dc + amp * v - dc| ≤ amp := by
  have h : dc + amp * v - dc = amp * v := by ring
  rw [h, abs_mul, abs_of_nonneg hamp]
  calc amp * |v| ≤ amp * 1 := mul_le_mul_of_nonneg_left hv hamp
    _ = amp := mul_one amp

/-- C8: for every recognized shape, every time, every positive frequency,
every non-negative amplitude and every offset, the generator output stays
within one amplitude of the offset: `|evaluate t - dcOffset| ≤ amplitude`. -/
theorem C8_amplitude_bound (shape : String)
    (hshape : shape = sineShape ∨ shape = squareShape ∨ shape = triangleShape ∨
      shape = sawtoothShape)
    (t freq amp dc : ℝ) (hfreq : 0 < freq) (hamp : 0 ≤ amp) :
    |get_signal_value t shape freq amp dc - dc| ≤ amp := by
  rcases hshape with h | h | h | h <;> subst h
  · have hval : get_signal_value t sineShape freq amp dc
        = dc + amp * Real.sin (2 * Real.pi * freq * t) := by
      simp [get_signal_value, sineShape]
    rw [hval]
    exact offset_bound amp dc _ hamp (Real.abs_sin_le_one _)
  · have hval : get_signal_value t squareShape freq amp dc
        = dc + amp * Real.sign (Real.sin (2 * Real.pi * freq * t)) := by
      simp [get_signal_value, squareShape]
    rw [hval]
    exact offset_bound amp dc _ hamp (abs_sign_le_one _)
  · have hval : get_signal_value t triangleShape freq amp dc
        = dc + amp * (2 / Real.pi * Real.arcsin (Real.sin (2 * Real.pi * freq * t))) := by
      simp [get_signal_value, triangleShape]
    rw [hval]
    exact offset_bound amp dc _ hamp (abs_triangle_le_one _)
  · have hval : get_signal_value t sawtoothShape freq amp dc
        = dc + amp * (2 * (t * freq - (⌊0.5 + t * freq⌋ : ℝ))) := by
      simp [get_signal_value, sawtoothShape]
    rw [hval]
    exact offset_bound amp dc _ hamp (abs_sawtooth_le_one _)

/-- Witness for C8 at the sine shape with `t = 0`, `freq = 1`, `amp = 1`,
`dc = 0`. -/
theorem C8_amplitude_bound_witness :
    |get_signal_value 0 sineShape 1 1 0 - 0| ≤ 1 :=
  C8_amplitude_bound sineShape (Or.inl rfl) 0 1 1 0 (by norm_num) (by norm_num)

/-- C9: whenever the signal frequency lies strictly between the Nyquist
frequency and the sampling frequency and `|fs - 2 f| ≤ 0.01`, the mirrored
alias is `fs - f`, within the tolerance of `f`, so `isAliased` is `False`
even though the alias differs from `f` whenever `fs ≠ 2 f`: true aliasing
goes unreported. -/
theorem C9_tolerance_masks_aliasing (f fs : ℝ) (hfs : 0 < fs)
    (h1 : fs / 2 < f) (h2 : f < fs) (h3 : |fs - 2 * f| ≤ 0.01) :
    ∃ r : SpectrumResult, computeAlias f fs = .ok r ∧
      r.aliasFrequency = fs - f ∧ ¬ r.isAliased ∧
      (fs ≠ 2 * f → r.aliasFrequency ≠ f) := by
  have hf0 : 0 < f := lt_trans (by positivity) h1
  have hfl : (⌊f / fs⌋ : ℤ) = 0 := by
    rw [Int.floor_eq_zero_iff]
    constructor
    · positivity
    · rw [div_lt_one hfs]
      exact h2
  have hfa : f_alias f fs = fs - f := by
    rw [f_alias_eq, hfl]
    have hc : f - fs * ((0 : ℤ) : ℝ) > fs / 2 := by
      push_cast
      linarith
    rw [if_pos hc]
    push_cast
    ring
  refine ⟨_, computeAlias_ok f fs hfs, hfa, ?_, ?_⟩
  · show ¬ |f_alias f fs - f| > 0.01
    rw [not_lt, hfa]
    have h : fs - f - f = fs - 2 * f := by ring
    rw [h]
    exact h3
  · intro hne
    show f_alias f fs ≠ f
    rw [hfa]
    intro heq
    apply hne
    linarith

/-- Witness for C9 at `signalFrequency = 50.004`, `samplingFrequency = 100`:
the alias is `49.996`, only `0.008` hertz from the signal, so the flag stays
off although the frequencies differ. -/
theorem C9_tolerance_masks_aliasing_witness :
    ∃ r : SpectrumResult, computeAlias 50.004 100 = .ok r ∧
      r.aliasFrequency = 100 - 50.004 ∧ ¬ r.isAliased ∧
      ((100 : ℝ) ≠ 2 * 50.004 → r.aliasFrequency ≠ 50.004) :=
  C9_tolerance_masks_aliasing 50.004 100 (by norm_num) (by norm_num) (by norm_num)
    (by rw [abs_le]; constructor <;> norm_num)

/-- C10: with a zero sampling frequency the script fails at line 77 with a
division-by-zero error before any validation runs: `renderApp` yields the
`ZeroDivisionError`, never a spectrum outcome, although the line-127 guard
itself (embodied by `computeAlias`) would have reported the
invalid-sampling-rate error had it been reached. -/
theorem C10_division_before_validation (f : ℝ) :
    renderApp f 0 = .error .zeroDivisionError ∧
    (∀ p : ℝ × Except SpectrumError SpectrumResult, renderApp f 0 ≠ .ok p) ∧
    computeAlias f 0 = .error .invalidSamplingRate := by
  have h : renderApp f 0 = .error .zeroDivisionError := by
    simp [renderApp]
  refine ⟨h, ?_, ?_⟩
  · intro p hp
    rw [h] at hp
    exact Except.noConfusion hp
  · simp only [computeAlias, if_pos le_rfl]

end AliasingVisualizer
